import Mathlib

/-!
Verification development for the `jupyterlite-myst` notebooks.

The repository holds three notebooks:
* `content/enzyme_kinetics_simulator.ipynb` — simulate Michaelis-Menten absorbance
  time series, estimate initial velocities, fit the two kinetic parameters;
* an unnamed notebook reading the simulated CSV back and running the same
  estimator (`calculate_initial_velocities`) and fitter on it;
* an unnamed notebook pivoting per-well plate measurements into a heatmap grid.

All numeric code is embedded over `ℚ` (exact arithmetic in place of IEEE floats);
`np.std`, which takes a square root, is the only `ℝ`-valued definition.
Python exceptions are modelled with `Except`.
-/

set_option maxRecDepth 40000

/-- Exception vocabulary: the four error classes named by the specification
together with the exceptions the numpy/scipy code in the notebooks can
actually raise.  The notebooks define none of the spec's classes; embedded
functions only ever produce `typeError` or `linAlgError`. -/
inductive KineticsError where
  | configurationError
  | insufficientDataError
  | underdeterminedFitError
  | fitConvergenceError
  | typeError
  | linAlgError
  deriving DecidableEq, Repr

deriving instance DecidableEq for Except

/-- A python `for` loop that appends `f x` to an accumulator list, where an
exception raised by any iteration aborts the whole loop. -/
def mapExcept {α β ε : Type} (f : α → Except ε β) : List α → Except ε (List β)
  | [] => .ok []
  | x :: xs => do
    let y ← f x
    let ys ← mapExcept f xs
    return y :: ys

/-- `pandas.Series.unique()`: the distinct values of a column, in order of
first appearance. -/
def uniqueVals {α : Type} [DecidableEq α] (l : List α) : List α :=
  l.foldl (fun acc x => if x ∈ acc then acc else acc ++ [x]) []

/-- `np.linspace(start, stop, num)` (with its `num` evenly spaced samples,
endpoint included). -/
def np_linspace (start stop : ℚ) (num : ℕ) : List ℚ :=
  (List.range num).map (fun i => start + (stop - start) * i / ((num : ℚ) - 1))

/-- `np.mean`. -/
def np_mean (xs : List ℚ) : ℚ := xs.sum / (xs.length : ℚ)

/-- The square of `np.std(xs)` with numpy's default `ddof=0`: the population
variance, mean of squared deviations with divisor `n` (not `n - 1`). -/
def np_var (xs : List ℚ) : ℚ := np_mean (xs.map (fun x => (x - np_mean xs) ^ 2))

/-- `np.std(xs)` (population standard deviation, `ddof=0`). -/
noncomputable def np_std (xs : List ℚ) : ℝ := Real.sqrt ((np_var xs : ℚ) : ℝ)

/-- Determinant `n·Σx² − (Σx)²` of the normal equations of a degree-1 least
squares fit; it is zero exactly when all sample positions coincide. -/
def polyfitD (xs : List ℚ) : ℚ :=
  (xs.length : ℚ) * (xs.map (fun t => t * t)).sum - xs.sum * xs.sum

/-- `np.polyfit(x, y, 1)`, returning `(slope, intercept)`.
* numpy raises `TypeError` for empty input or mismatched lengths;
* full rank (not all `x` equal): the unique ordinary-least-squares solution;
* all `x` equal to some `x0 ≠ 0`: the underlying LAPACK `gelsd` driver returns
  the minimum-norm least-squares solution of numpy's column-scaled system,
  which works out to slope `ȳ/(2·x0)`, intercept `ȳ/2` (with a `RankWarning`
  only — no exception);
* all `x` equal to `0`: numpy's column scale is `0`, the scaled matrix is
  non-finite, and the SVD fails with `LinAlgError`. -/
def polyfit1 (xs ys : List ℚ) : Except KineticsError (ℚ × ℚ) :=
  if xs.length = 0 ∨ xs.length ≠ ys.length then .error .typeError
  else if polyfitD xs = 0 then
    if xs.headI = 0 then .error .linAlgError
    else .ok (ys.sum / (xs.length : ℚ) / (2 * xs.headI), ys.sum / (xs.length : ℚ) / 2)
  else
    .ok
      (((xs.length : ℚ) * ((xs.zip ys).map (fun p => p.1 * p.2)).sum - xs.sum * ys.sum) /
        polyfitD xs,
      ((xs.map (fun t => t * t)).sum * ys.sum -
          xs.sum * ((xs.zip ys).map (fun p => p.1 * p.2)).sum) /
        polyfitD xs)

/-- `def michaelis_menten(S, V_max, K_m): return (V_max * S) / (K_m + S)`
(defined identically in both kinetics notebooks). -/
def michaelis_menten (S V_max K_m : ℚ) : ℚ := (V_max * S) / (K_m + S)

/-- The same function over `ℝ`, for the monotonicity/asymptote property. -/
noncomputable def michaelis_menten_real (S V_max K_m : ℝ) : ℝ := (V_max * S) / (K_m + S)

/-- `def simulate_absorbance(S, time, epsilon, path_length, noise_level)`:
`P = michaelis_menten(S, V_max, K_m) * time`, `A = epsilon * path_length * P`,
`A_noisy = A + np.random.normal(0, noise_level, size=A.shape)`.
`V_max`, `K_m` are module-level globals of the notebook, passed here
explicitly; the vector of Gaussian draws is passed as `noise` (its length is
always `len(time)` in the source, and `np.random.normal(0, 0, n)` is
identically zero). -/
def simulate_absorbance (S : ℚ) (time : List ℚ) (epsilon path_length : ℚ)
    (V_max K_m : ℚ) (noise : List ℚ) : List ℚ :=
  List.zipWith (fun t e => epsilon * path_length * (michaelis_menten S V_max K_m * t) + e)
    time noise

/-! ### The simulator notebook's pipeline (constants cell:
`epsilon=1000, path_length=1, V_max=100, K_m=50, time=np.linspace(0,10,100),
substrate_concentrations=np.array([10,20,50,100,200])`). -/

def sim_time : List ℚ := np_linspace 0 10 100

def sim_substrate_concentrations : List ℚ := [10, 20, 50, 100, 200]

/-- One row of the simulator notebook's DataFrame `df`
(columns `Time`, `Absorbance`, `Substrate_Concentration`). -/
structure SimRow where
  Time : ℚ
  Absorbance : ℚ
  Substrate_Concentration : ℚ
  deriving DecidableEq, Repr

/-- The `data` loop: one block of rows per substrate concentration,
concatenated into `df`.  `noise S` is the Gaussian draw vector used for the
concentration `S`. -/
def sim_df (noise : ℚ → List ℚ) : List SimRow :=
  (sim_substrate_concentrations.map (fun S =>
    (sim_time.zip (simulate_absorbance S sim_time 1000 1 100 50 (noise S))).map
      (fun p => SimRow.mk p.1 p.2 S))).flatten

/-- `df['Concentration'] = df['Absorbance'] / (epsilon * path_length)`. -/
def sim_concentration (r : SimRow) : ℚ := r.Absorbance / (1000 * 1)

/-- The `initial_velocities` loop: for each `S` in
`substrate_concentrations`, the slope of `np.polyfit` of the subset's
`Concentration` against `Time`. -/
def sim_initial_velocities (df : List SimRow) : Except KineticsError (List ℚ) :=
  mapExcept (fun S =>
    (polyfit1 ((df.filter (fun r => r.Substrate_Concentration = S)).map SimRow.Time)
        ((df.filter (fun r => r.Substrate_Concentration = S)).map sim_concentration)).map
      Prod.fst)
    sim_substrate_concentrations

/-- C1: with `noise_level = 0` (all Gaussian draws are exactly `0`), the
estimator of the simulator notebook reports, for every substrate
concentration `S` of the scenario, a slope exactly equal to the analytic
Michaelis-Menten velocity `100·S/(50+S)`. -/
theorem C1_noiseless_pipeline_reports_exact_mm_velocities :
    sim_initial_velocities (sim_df (fun _ => List.replicate 100 0)) =
      .ok (sim_substrate_concentrations.map (fun S => 100 * S / (50 + S))) :=
  of_decide_eq_true (by with_unfolding_all rfl)

/-! ### C2: shape of the Michaelis-Menten curve -/

/-- C2: for `V_max > 0`, `K_m > 0`, the map `S ↦ michaelis_menten(S, V_max, K_m)`
is monotone non-decreasing on `S ≥ 0`, tends to `V_max` as `S → ∞`, and takes
the value `V_max / 2` exactly at `S = K_m`. -/
theorem C2_michaelis_menten_shape (V_max K_m : ℝ) (hV : 0 < V_max) (hK : 0 < K_m) :
    MonotoneOn (fun S => michaelis_menten_real S V_max K_m) (Set.Ici 0) ∧
    Filter.Tendsto (fun S => michaelis_menten_real S V_max K_m) Filter.atTop
      (nhds V_max) ∧
    michaelis_menten_real K_m V_max K_m = V_max / 2 := by
  refine ⟨?_, ?_, ?_⟩
  · intro a ha b hb hab
    simp only [Set.mem_Ici] at ha hb
    simp only [michaelis_menten_real]
    rw [div_le_div_iff₀ (by linarith) (by linarith)]
    nlinarith [mul_nonneg (mul_nonneg hV.le hK.le) (sub_nonneg.mpr hab)]
  · have h1 : Filter.Tendsto (fun S : ℝ => V_max * K_m / (K_m + S)) Filter.atTop
        (nhds 0) :=
      Filter.Tendsto.div_atTop tendsto_const_nhds
        (Filter.tendsto_atTop_add_const_left Filter.atTop K_m Filter.tendsto_id)
    have h2 : Filter.Tendsto (fun S : ℝ => V_max - V_max * K_m / (K_m + S))
        Filter.atTop (nhds (V_max - 0)) := Filter.Tendsto.sub tendsto_const_nhds h1
    rw [sub_zero] at h2
    refine Filter.Tendsto.congr' ?_ h2
    filter_upwards [Filter.eventually_gt_atTop 0] with S hS
    have hKS : K_m + S ≠ 0 := ne_of_gt (by linarith)
    simp only [michaelis_menten_real]
    field_simp
    ring
  · simp only [michaelis_menten_real]
    rw [div_eq_div_iff (by linarith) (by norm_num : (2:ℝ) ≠ 0)]
    ring

/-- Witness for C2 at `V_max = 2`, `K_m = 1`. -/
theorem C2_michaelis_menten_shape_witness :
    (0:ℝ) < 2 ∧ (0:ℝ) < 1 ∧
      (MonotoneOn (fun S => michaelis_menten_real S 2 1) (Set.Ici 0) ∧
       Filter.Tendsto (fun S => michaelis_menten_real S 2 1) Filter.atTop (nhds 2) ∧
       michaelis_menten_real 1 2 1 = 2 / 2) :=
  ⟨by norm_num, by norm_num, C2_michaelis_menten_shape 2 1 (by norm_num) (by norm_num)⟩

/-! ### C3: the noiseless generator is exactly Beer-Lambert -/

/-- Adding an all-zero noise vector of matching length is the identity. -/
theorem zipWith_add_zero (g : ℚ → ℚ) (time : List ℚ) :
    ∀ (noise : List ℚ), noise.length = time.length → (∀ e ∈ noise, e = 0) →
      List.zipWith (fun t e => g t + e) time noise = time.map g := by
  induction time with
  | nil => intro noise _ _; simp
  | cons t ts ih =>
    intro noise hlen hz
    match noise with
    | [] => simp at hlen
    | e :: es =>
      simp only [List.zipWith_cons_cons, List.map_cons]
      rw [hz e (by simp), add_zero,
        ih es (by simpa using hlen) (fun x hx => hz x (by simp [hx]))]

/-- C3: with all Gaussian draws equal to zero (`noise_level = 0`), the
generator's output absorbance at each time point `t` is exactly
`epsilon * path_length * (V_max * S / (K_m + S)) * t`. -/
theorem C3_simulate_absorbance_noiseless_exact (S epsilon path_length V_max K_m : ℚ)
    (time noise : List ℚ) (hlen : noise.length = time.length)
    (hzero : ∀ e ∈ noise, e = 0) :
    simulate_absorbance S time epsilon path_length V_max K_m noise =
      time.map (fun t => epsilon * path_length * (V_max * S / (K_m + S)) * t) := by
  unfold simulate_absorbance
  rw [zipWith_add_zero (fun t => epsilon * path_length * (michaelis_menten S V_max K_m * t))
    time noise hlen hzero]
  have hfun : (fun t => epsilon * path_length * (michaelis_menten S V_max K_m * t)) =
      (fun t => epsilon * path_length * (V_max * S / (K_m + S)) * t) := by
    funext t
    unfold michaelis_menten
    ring
  rw [hfun]

/-- Witness for C3 on a concrete call. -/
theorem C3_simulate_absorbance_noiseless_exact_witness :
    simulate_absorbance 10 [0, 1, 2] 2 3 100 50 [0, 0, 0] =
      [0, 1, 2].map (fun t => 2 * 3 * (100 * 10 / (50 + 10)) * t) :=
  C3_simulate_absorbance_noiseless_exact 10 2 3 100 50 [0, 1, 2] [0, 0, 0]
    (by simp) (by simp)

/-! ### The CSV notebook: `calculate_initial_velocities` and the fitter call -/

/-- One row of the CSV notebook's DataFrame (columns `Time`, `Absorbance`,
`Substrate_Concentration`, `Replicate`). -/
structure TableRow where
  Time : ℚ
  Absorbance : ℚ
  Substrate_Concentration : ℚ
  Replicate : ℤ
  deriving DecidableEq, Repr

/-- The inner loop of `calculate_initial_velocities` for one concentration's
subset: `subset['Concentration'] = subset['Absorbance'] / (epsilon *
path_length)`, then for each id in `subset['Replicate'].unique()` the slope of
`np.polyfit(replicate_data['Time'], replicate_data['Concentration'], 1)`.
(The `Concentration` column is a per-row function of `Absorbance`, so it is
applied here inside each per-replicate subset.) -/
def v0_values (subset : List TableRow) (epsilon path_length : ℚ) :
    Except KineticsError (List ℚ) :=
  mapExcept (fun rep =>
      let replicate_data := subset.filter (fun r => r.Replicate = rep)
      (polyfit1 (replicate_data.map TableRow.Time)
          (replicate_data.map (fun r => r.Absorbance / (epsilon * path_length)))).map
        Prod.fst)
    (uniqueVals (subset.map TableRow.Replicate))

/-- `calculate_initial_velocities` before its `np.mean`/`np.std` aggregation:
the distinct concentrations of `df['Substrate_Concentration'].unique()`
(first-appearance order) paired with the per-replicate `v0` list of each. -/
def calc_core (df : List TableRow) (epsilon path_length : ℚ) :
    Except KineticsError (List ℚ × List (List ℚ)) :=
  (mapExcept
      (fun S =>
        v0_values (df.filter (fun r => r.Substrate_Concentration = S)) epsilon path_length)
      (uniqueVals (df.map TableRow.Substrate_Concentration))).map
    (fun vs => (uniqueVals (df.map TableRow.Substrate_Concentration), vs))

/-- `def calculate_initial_velocities(df, epsilon, path_length)` of the CSV
notebook: returns the triple `(substrate_concentrations, initial_velocities,
std_velocities)` — the distinct concentrations and, for each, the `np.mean`
and `np.std` of its per-replicate `v0` slopes.  The function body contains no
validation of `epsilon` or `path_length` and defines no error classes; the
only exceptions that can escape are numpy's own. -/
noncomputable def calculate_initial_velocities (df : List TableRow)
    (epsilon path_length : ℚ) :
    Except KineticsError (List ℚ × List ℚ × List ℝ) :=
  (calc_core df epsilon path_length).map
    (fun p => (p.1, p.2.map np_mean, p.2.map np_std))

/-- The `(mean v0, std v0)` pair that the estimator's output triple associates
with the concentration `S` (entries of the triple correspond by position). -/
noncomputable def lookupReport (res : List ℚ × List ℚ × List ℝ) (S : ℚ) :
    Option (ℚ × ℝ) :=
  ((res.1.zip (res.2.1.zip res.2.2)).find? (fun p => p.1 = S)).map Prod.snd

/-- The number of distinct replicate ids the table holds for concentration
`S`. -/
def numReplicates (df : List TableRow) (S : ℚ) : ℕ :=
  (uniqueVals ((df.filter (fun r => r.Substrate_Concentration = S)).map
    TableRow.Replicate)).length

/-- `Except.map` on a success. -/
theorem except_map_ok {ε α β : Type} (f : α → β) (a : α) :
    (Except.ok a : Except ε α).map f = .ok (f a) := rfl

/-- `Except.map` on an exception. -/
theorem except_map_error {ε α β : Type} (f : α → β) (e : ε) :
    (Except.error e : Except ε α).map f = .error e := rfl

/-- The argument-validation behaviour of
`curve_fit(michaelis_menten, xs, ys, p0=[V_max, K_m])` as called by both
kinetics notebooks.  With `p0` supplying 2 free parameters, scipy raises
`TypeError` («The number of func parameters=2 must not exceed the number of
data points=m», where `m = len(ydata)`) when fewer than 2 observations are
supplied.  It performs no other validation of the inputs — in particular it
never checks that the concentrations are distinct.  The Levenberg-Marquardt
iteration itself is outside this model; only the validation layer decides
which exceptions are raised up front. -/
def curve_fit_mm_check (xs ys : List ℚ) : Except KineticsError Unit :=
  if ys.length < 2 then .error .typeError else .ok ()

/-! ### C4: no `UnderdeterminedFitError` exists -/

/-- C4 counterexample: two data points with the same concentration have fewer
than 2 distinct values, yet the fitter call raises nothing (and one single
point raises scipy's `TypeError`, not an `UnderdeterminedFitError`). -/
theorem C4_counterexample_duplicate_concentrations_pass :
    (uniqueVals [(10 : ℚ), 10]).length = 1 ∧
      curve_fit_mm_check [(10 : ℚ), 10] [5, 5] ≠
        .error .underdeterminedFitError ∧
      curve_fit_mm_check [(10 : ℚ)] [5] = .error .typeError := by
  refine ⟨of_decide_eq_true (by with_unfolding_all rfl), ?_, rfl⟩
  have h : curve_fit_mm_check [(10 : ℚ), 10] [5, 5] = .ok () := rfl
  simp [h]

/-- C4 (amended): the fitter call performs no distinctness check and can
never raise `UnderdeterminedFitError`; the only up-front failure is scipy's
`TypeError` when fewer observations than the 2 free parameters are passed. -/
theorem C4_fitter_count_check_only (xs ys : List ℚ) (e : KineticsError)
    (h : curve_fit_mm_check xs ys = .error e) :
    e = .typeError ∧ ys.length < 2 := by
  unfold curve_fit_mm_check at h
  by_cases hlen : ys.length < 2
  · simp only [if_pos hlen] at h
    exact ⟨(Except.error.inj h).symm, hlen⟩
  · simp [if_neg hlen] at h

/-- Witness for C4 (amended) at the empty input. -/
theorem C4_fitter_count_check_only_witness :
    KineticsError.typeError = KineticsError.typeError ∧ ([] : List ℚ).length < 2 :=
  C4_fitter_count_check_only [] [] .typeError rfl

/-! ### C5 / C6: the estimator defines no validation errors -/

/-- C5 counterexample: called with `epsilon = 0` the estimator does not raise
`ConfigurationError` (no such class exists; pandas division by zero produces
non-finite values without raising, and the call returns normally). -/
theorem C5_counterexample_zero_epsilon_no_error :
    calculate_initial_velocities [TableRow.mk 1 5 10 1] 0 1 ≠
      .error .configurationError := by
  have h : calc_core [TableRow.mk 1 5 10 1] 0 1 = .ok ([10], [[0]]) :=
    of_decide_eq_true (by with_unfolding_all rfl)
  simp [calculate_initial_velocities, h, except_map_ok]

/-- C6 counterexample: a replicate with a single time point does not raise
`InsufficientDataError` (no such class exists; `np.polyfit` returns its
minimum-norm slope with only a `RankWarning`). -/
theorem C6_counterexample_single_point_no_error :
    calculate_initial_velocities [TableRow.mk 1 5 10 1] 1000 1 ≠
      .error .insufficientDataError := by
  have h : calc_core [TableRow.mk 1 5 10 1] 1000 1 = .ok ([10], [[1/400]]) :=
    of_decide_eq_true (by with_unfolding_all rfl)
  simp [calculate_initial_velocities, h, except_map_ok]

/-! ### Helper lemmas about the embedded combinators -/

/-- `bind` on a successful `Except`. -/
theorem except_bind_ok {ε α β : Type} (a : α) (f : α → Except ε β) :
    (Except.ok a : Except ε α) >>= f = f a := rfl

/-- `bind` on a failed `Except`. -/
theorem except_bind_error {ε α β : Type} (e : ε) (f : α → Except ε β) :
    (Except.error e : Except ε α) >>= f = .error e := rfl

/-- `pure` for `Except` is `ok`. -/
theorem except_pure_eq {ε α : Type} (a : α) : (pure a : Except ε α) = .ok a := rfl

/-- Mapping a function over an `Except` does not change whether it is a
success. -/
theorem except_isOk_map {ε α β : Type} (f : α → β) (x : Except ε α) :
    (x.map f).isOk = x.isOk := by
  cases x <;> rfl

/-- Mapping a function over an `Except` preserves exceptions exactly. -/
theorem except_map_eq_error_iff {ε α β : Type} (f : α → β) (x : Except ε α) (e : ε) :
    x.map f = .error e ↔ x = .error e := by
  cases x <;> simp [except_map_ok, except_map_error]

/-- `mapExcept` succeeds exactly when every iteration succeeds. -/
theorem mapExcept_isOk {α β ε : Type} (f : α → Except ε β) (xs : List α) :
    (mapExcept f xs).isOk = xs.all (fun x => (f x).isOk) := by
  induction xs with
  | nil => rfl
  | cons x xs ih =>
    rw [List.all_cons, ← ih]
    cases hfx : f x with
    | error e =>
      rw [mapExcept, hfx, except_bind_error]
      rfl
    | ok y =>
      rw [mapExcept, hfx, except_bind_ok]
      cases hm : mapExcept f xs with
      | error e =>
        rw [except_bind_error]
        rfl
      | ok l =>
        rw [except_bind_ok, except_pure_eq]
        rfl

/-- `mapExcept` characterised on successes. -/
theorem mapExcept_eq_ok_iff {α β ε : Type} (f : α → Except ε β) :
    ∀ (xs : List α) (ys : List β),
      mapExcept f xs = .ok ys ↔ List.Forall₂ (fun x y => f x = .ok y) xs ys := by
  intro xs
  induction xs with
  | nil =>
    intro ys
    constructor
    · intro h
      have : ([] : List β) = ys := Except.ok.inj h
      subst this
      exact List.Forall₂.nil
    · intro h
      cases h
      rfl
  | cons x xs ih =>
    intro ys
    constructor
    · intro h
      cases hfx : f x with
      | error e => rw [mapExcept, hfx, except_bind_error] at h; cases h
      | ok y =>
        rw [mapExcept, hfx, except_bind_ok] at h
        cases hm : mapExcept f xs with
        | error e => rw [hm, except_bind_error] at h; cases h
        | ok l =>
          rw [hm, except_bind_ok, except_pure_eq] at h
          have : y :: l = ys := Except.ok.inj h
          subst this
          exact List.Forall₂.cons hfx ((ih l).mp hm)
    · intro h
      cases h with
      | cons hxy htl =>
        rw [mapExcept, hxy, except_bind_ok, (ih _).mpr htl, except_bind_ok, except_pure_eq]

/-- A successful `mapExcept` yields a list of the same length. -/
theorem mapExcept_length {α β ε : Type} (f : α → Except ε β) (xs : List α)
    (ys : List β) (h : mapExcept f xs = .ok ys) : ys.length = xs.length :=
  (((mapExcept_eq_ok_iff f xs ys).mp h).length_eq).symm

/-- A failed `mapExcept` exposes a failing element. -/
theorem mapExcept_error_exists {α β ε : Type} (f : α → Except ε β) (xs : List α)
    (e : ε) (h : mapExcept f xs = .error e) : ∃ x ∈ xs, f x = .error e := by
  induction xs with
  | nil => cases h
  | cons x xs ih =>
    cases hfx : f x with
    | error e2 =>
      rw [mapExcept, hfx, except_bind_error] at h
      exact ⟨x, by simp, hfx.trans (congrArg Except.error (Except.error.inj h))⟩
    | ok y =>
      rw [mapExcept, hfx, except_bind_ok] at h
      cases hm : mapExcept f xs with
      | error e2 =>
        rw [hm, except_bind_error] at h
        obtain ⟨z, hz, hfz⟩ := ih (hm.trans (congrArg Except.error (Except.error.inj h)))
        exact ⟨z, by simp [hz], hfz⟩
      | ok l => rw [hm, except_bind_ok, except_pure_eq] at h; cases h

/-- Pointwise equal predicates give the same `List.all`. -/
theorem list_all_congr {α : Type} (l : List α) (p q : α → Bool)
    (h : ∀ x ∈ l, p x = q x) : l.all p = l.all q := by
  induction l with
  | nil => rfl
  | cons x xs ih =>
    rw [List.all_cons, List.all_cons, h x (by simp),
      ih (fun z hz => h z (by simp [hz]))]

/-- Whether `np.polyfit(x, ·, 1)` raises depends only on `x` and the length
of the value vector, never on the values. -/
theorem polyfit1_isOk_congr (xs ys zs : List ℚ) (h : ys.length = zs.length) :
    (polyfit1 xs ys).isOk = (polyfit1 xs zs).isOk := by
  have h0 : (xs.length = 0 ∨ xs.length ≠ ys.length) ↔
      (xs.length = 0 ∨ xs.length ≠ zs.length) := by rw [h]
  unfold polyfit1
  by_cases hc : xs.length = 0 ∨ xs.length ≠ ys.length
  · rw [if_pos hc, if_pos (h0.mp hc)]
  · rw [if_neg hc, if_neg (fun hz => hc (h0.mpr hz))]
    by_cases hd : polyfitD xs = 0
    · rw [if_pos hd, if_pos hd]
      by_cases hx : xs.headI = 0
      · rw [if_pos hx, if_pos hx]
      · rw [if_neg hx, if_neg hx]
        rfl
    · rw [if_neg hd, if_neg hd]
      rfl

/-- `np.polyfit` can only raise numpy's own exceptions. -/
theorem polyfit1_error_cases (xs ys : List ℚ) (e : KineticsError)
    (h : polyfit1 xs ys = .error e) : e = .typeError ∨ e = .linAlgError := by
  unfold polyfit1 at h
  split at h
  · exact Or.inl (Except.error.inj h).symm
  · split at h
    · split at h
      · exact Or.inr (Except.error.inj h).symm
      · cases h
    · cases h

/-! ### C5 (amended): no validation of the physical constants -/

/-- C5 (amended): `calculate_initial_velocities` performs no validation of
`epsilon` and `path_length` — whether it raises is entirely independent of
them (in particular a zero value raises nothing by itself), and it can never
raise `ConfigurationError`: no such error class exists in the code. -/
theorem C5_no_epsilon_validation (df : List TableRow)
    (epsilon path_length eps2 plen2 : ℚ) :
    (calculate_initial_velocities df epsilon path_length).isOk =
      (calculate_initial_velocities df eps2 plen2).isOk ∧
    calculate_initial_velocities df epsilon path_length ≠
      .error .configurationError := by
  constructor
  · unfold calculate_initial_velocities calc_core
    rw [except_isOk_map, except_isOk_map, except_isOk_map, except_isOk_map,
      mapExcept_isOk, mapExcept_isOk]
    refine list_all_congr _ _ _ (fun S hS => ?_)
    unfold v0_values
    rw [mapExcept_isOk, mapExcept_isOk]
    refine list_all_congr _ _ _ (fun rep hrep => ?_)
    rw [except_isOk_map, except_isOk_map]
    exact polyfit1_isOk_congr _ _ _ (by simp)
  · intro hc
    unfold calculate_initial_velocities at hc
    rw [except_map_eq_error_iff] at hc
    unfold calc_core at hc
    rw [except_map_eq_error_iff] at hc
    obtain ⟨S, _, hv⟩ := mapExcept_error_exists _ _ _ hc
    unfold v0_values at hv
    obtain ⟨rep, _, hp⟩ := mapExcept_error_exists _ _ _ hv
    rw [except_map_eq_error_iff] at hp
    rcases polyfit1_error_cases _ _ _ hp with h | h <;> exact KineticsError.noConfusion h

/-! ### Per-replicate behaviour on single-point data (C6) -/

/-- `np.polyfit` on a single sample point: `LinAlgError` at `x = 0`, the
minimum-norm slope `y/(2x)` otherwise. -/
theorem polyfit1_single (x y : ℚ) :
    polyfit1 [x] [y] =
      if x = 0 then .error .linAlgError else .ok (y / (2 * x), y / 2) := by
  have hd : polyfitD [x] = 0 := by
    unfold polyfitD
    simp
  unfold polyfit1
  rw [if_neg (by simp), if_pos hd]
  by_cases hx : x = 0
  · rw [if_pos (by simpa using hx), if_pos hx]
  · rw [if_neg (by simpa using hx), if_neg hx]
    norm_num

/-- The estimator's core on a one-row table is a single `np.polyfit` call on
that row's point. -/
theorem calc_core_single (r : TableRow) (epsilon path_length : ℚ) :
    calc_core [r] epsilon path_length =
      (polyfit1 [r.Time] [r.Absorbance / (epsilon * path_length)]).map
        (fun p => ([r.Substrate_Concentration], [[p.1]])) := by
  unfold calc_core v0_values
  simp [uniqueVals, mapExcept]
  cases hp : polyfit1 [r.Time] [r.Absorbance / (epsilon * path_length)] with
  | error e => rfl
  | ok p => rfl

/-- `np.mean` of a one-element list. -/
theorem np_mean_singleton (x : ℚ) : np_mean [x] = x := by
  unfold np_mean
  simp

/-- Population variance of a one-element list is zero. -/
theorem np_var_singleton (x : ℚ) : np_var [x] = 0 := by
  unfold np_var
  simp [np_mean_singleton]

/-- `np.std` of a one-element list is exactly zero. -/
theorem np_std_singleton (x : ℚ) : np_std [x] = 0 := by
  unfold np_std
  rw [np_var_singleton]
  simp

/-- `np.mean` of a constant list. -/
theorem np_mean_replicate (k : ℕ) (x : ℚ) (hk : k ≠ 0) :
    np_mean (List.replicate k x) = x := by
  unfold np_mean
  rw [List.sum_replicate, List.length_replicate, nsmul_eq_mul]
  exact mul_div_cancel_left₀ x (Nat.cast_ne_zero.mpr hk)

/-- Population variance of a constant list is zero. -/
theorem np_var_replicate (k : ℕ) (x : ℚ) : np_var (List.replicate k x) = 0 := by
  rcases Nat.eq_zero_or_pos k with hk | hk
  · subst hk
    unfold np_var np_mean
    simp
  · unfold np_var
    rw [np_mean_replicate k x (Nat.pos_iff_ne_zero.mp hk), List.map_replicate]
    rw [sub_self, zero_pow (by norm_num), np_mean_replicate k 0 (Nat.pos_iff_ne_zero.mp hk)]

/-- `np.std` of a constant list is exactly zero. -/
theorem np_std_replicate (k : ℕ) (x : ℚ) : np_std (List.replicate k x) = 0 := by
  unfold np_std
  rw [np_var_replicate]
  simp

/-- C6 (amended): the estimator never raises `InsufficientDataError` (no such
class exists).  A replicate consisting of one single time point `t ≠ 0`
succeeds, reporting the minimum-norm least-squares slope
`(A/(epsilon·path_length))/(2t)` with standard deviation 0, while a single
point at `t = 0` raises numpy's `LinAlgError`. -/
theorem C6_single_point_behaviour (t A S : ℚ) (rep : ℤ) (epsilon path_length : ℚ) :
    (t ≠ 0 →
      calculate_initial_velocities [TableRow.mk t A S rep] epsilon path_length =
        .ok ([S], [A / (epsilon * path_length) / (2 * t)], [0])) ∧
    calculate_initial_velocities [TableRow.mk 0 A S rep] epsilon path_length =
      .error .linAlgError := by
  constructor
  · intro ht
    have hc : calc_core [TableRow.mk t A S rep] epsilon path_length =
        .ok ([S], [[A / (epsilon * path_length) / (2 * t)]]) := by
      rw [calc_core_single]
      show (polyfit1 [t] [A / (epsilon * path_length)]).map _ = _
      rw [polyfit1_single, if_neg ht, except_map_ok]
    unfold calculate_initial_velocities
    rw [hc, except_map_ok]
    simp [np_mean_singleton, np_std_singleton]
  · have hc : calc_core [TableRow.mk 0 A S rep] epsilon path_length =
        .error .linAlgError := by
      rw [calc_core_single]
      show (polyfit1 [0] [A / (epsilon * path_length)]).map _ = _
      rw [polyfit1_single, if_pos rfl, except_map_error]
    unfold calculate_initial_velocities
    rw [hc, except_map_error]

/-- Witness for C6 (amended) at a concrete single-point replicate. -/
theorem C6_single_point_behaviour_witness :
    (calculate_initial_velocities [TableRow.mk 1 5 10 1] 1000 1 =
        .ok ([10], [5 / (1000 * 1) / (2 * 1)], [0])) ∧
    calculate_initial_velocities [TableRow.mk 0 5 10 1] 1000 1 =
      .error .linAlgError :=
  ⟨(C6_single_point_behaviour 1 5 10 1 1000 1).1 (by norm_num),
    (C6_single_point_behaviour 0 5 10 1 1000 1).2⟩

/-! ### Locating a concentration's report in the output triple (C8, C10) -/

/-- Membership in a fold of the `unique` accumulator. -/
theorem uniqueVals_foldl_mem {α : Type} [DecidableEq α] (l : List α) :
    ∀ (acc : List α) (a : α),
      a ∈ l.foldl (fun acc x => if x ∈ acc then acc else acc ++ [x]) acc ↔
        a ∈ acc ∨ a ∈ l := by
  induction l with
  | nil => intro acc a; simp
  | cons x xs ih =>
    intro acc a
    rw [List.foldl_cons]
    by_cases hx : x ∈ acc
    · rw [if_pos hx, ih]
      constructor
      · rintro (h | h)
        · exact Or.inl h
        · exact Or.inr (by simp [h])
      · rintro (h | h)
        · exact Or.inl h
        · rcases List.mem_cons.mp h with rfl | h2
          · exact Or.inl hx
          · exact Or.inr h2
    · rw [if_neg hx, ih]
      simp only [List.mem_append, List.mem_singleton, List.mem_cons]
      tauto

/-- `unique` returns exactly the values present in the column. -/
theorem mem_uniqueVals {α : Type} [DecidableEq α] (l : List α) (a : α) :
    a ∈ uniqueVals l ↔ a ∈ l := by
  unfold uniqueVals
  rw [uniqueVals_foldl_mem]
  simp

/-- Eliminating a successful estimator call into its computational core. -/
theorem calculate_ok_elim (df : List TableRow) (epsilon path_length : ℚ)
    (res : List ℚ × List ℚ × List ℝ)
    (h : calculate_initial_velocities df epsilon path_length = .ok res) :
    ∃ scs vs, calc_core df epsilon path_length = .ok (scs, vs) ∧
      res = (scs, vs.map np_mean, vs.map np_std) := by
  unfold calculate_initial_velocities at h
  cases hc : calc_core df epsilon path_length with
  | error e => rw [hc, except_map_error] at h; cases h
  | ok p =>
    rw [hc, except_map_ok] at h
    exact ⟨p.1, p.2, rfl, (Except.ok.inj h).symm⟩

/-- A successful core call returns the unique concentrations together with,
for each, the `v0` list computed from that concentration's own rows. -/
theorem calc_core_ok_spec (df : List TableRow) (epsilon path_length : ℚ)
    (scs : List ℚ) (vs : List (List ℚ))
    (h : calc_core df epsilon path_length = .ok (scs, vs)) :
    scs = uniqueVals (df.map TableRow.Substrate_Concentration) ∧
    List.Forall₂
      (fun S v =>
        v0_values (df.filter (fun r => r.Substrate_Concentration = S)) epsilon path_length
          = .ok v)
      scs vs := by
  unfold calc_core at h
  cases hm : mapExcept
      (fun S =>
        v0_values (df.filter (fun r => r.Substrate_Concentration = S)) epsilon path_length)
      (uniqueVals (df.map TableRow.Substrate_Concentration)) with
  | error e => rw [hm, except_map_error] at h; cases h
  | ok l =>
    rw [hm, except_map_ok] at h
    have h2 := Except.ok.inj h
    have hs : uniqueVals (df.map TableRow.Substrate_Concentration) = scs :=
      congrArg Prod.fst h2
    have hv : l = vs := congrArg Prod.snd h2
    subst hv
    refine ⟨hs.symm, ?_⟩
    rw [← hs]
    exact (mapExcept_eq_ok_iff _ _ _).mp hm

/-- The report the output triple associates with `S`, characterised from the
per-concentration `v0` lists. -/
theorem lookupReport_of_forall2 (df : List TableRow) (epsilon path_length S : ℚ)
    (scs : List ℚ) (vs : List (List ℚ))
    (h : List.Forall₂
      (fun S0 v =>
        v0_values (df.filter (fun r => r.Substrate_Concentration = S0)) epsilon path_length
          = .ok v)
      scs vs) :
    lookupReport (scs, vs.map np_mean, vs.map np_std) S =
      if S ∈ scs then
        (v0_values (df.filter (fun r => r.Substrate_Concentration = S)) epsilon
          path_length).toOption.map (fun v => (np_mean v, np_std v))
      else none := by
  induction h with
  | nil => simp [lookupReport]
  | @cons S0 v0 rest vrest hxy htl ih =>
    by_cases hS : S0 = S
    · subst hS
      rw [if_pos (List.mem_cons_self _ _), hxy]
      simp [lookupReport, List.find?_cons, Except.toOption]
    · have hmem : (S ∈ S0 :: rest) ↔ (S ∈ rest) := by
        constructor
        · intro h
          rcases List.mem_cons.mp h with rfl | h2
          · exact absurd rfl hS
          · exact h2
        · intro h
          exact List.mem_cons_of_mem _ h
      rw [if_congr hmem rfl rfl, ← ih]
      simp [lookupReport, List.find?_cons, hS]

/-- C8: the report for a concentration `S` is computed only from the rows of
that concentration: two tables agreeing on their `S`-rows yield identical
`(mean v0, std v0)` reports for `S`, whatever rows they hold for other
concentrations, whenever both estimator calls return. -/
theorem C8_report_depends_only_on_own_rows (df1 df2 : List TableRow)
    (epsilon path_length S : ℚ)
    (hrows : df1.filter (fun r => r.Substrate_Concentration = S) =
      df2.filter (fun r => r.Substrate_Concentration = S))
    (res1 res2 : List ℚ × List ℚ × List ℝ)
    (h1 : calculate_initial_velocities df1 epsilon path_length = .ok res1)
    (h2 : calculate_initial_velocities df2 epsilon path_length = .ok res2) :
    lookupReport res1 S = lookupReport res2 S := by
  obtain ⟨scs1, vs1, hc1, hr1⟩ := calculate_ok_elim df1 _ _ _ h1
  obtain ⟨scs2, vs2, hc2, hr2⟩ := calculate_ok_elim df2 _ _ _ h2
  obtain ⟨hu1, hf1⟩ := calc_core_ok_spec df1 _ _ _ _ hc1
  obtain ⟨hu2, hf2⟩ := calc_core_ok_spec df2 _ _ _ _ hc2
  subst hr1
  subst hr2
  rw [lookupReport_of_forall2 df1 _ _ _ _ _ hf1,
    lookupReport_of_forall2 df2 _ _ _ _ _ hf2]
  have hmemiff : (S ∈ scs1) ↔ (S ∈ scs2) := by
    rw [hu1, hu2, mem_uniqueVals, mem_uniqueVals]
    constructor
    · intro hm
      rcases List.mem_map.mp hm with ⟨r, hr, hrS⟩
      have hmem2 : r ∈ df2.filter (fun r => r.Substrate_Concentration = S) := by
        rw [← hrows]
        exact List.mem_filter.mpr ⟨hr, by simp [hrS]⟩
      exact List.mem_map.mpr ⟨r, (List.mem_filter.mp hmem2).1, hrS⟩
    · intro hm
      rcases List.mem_map.mp hm with ⟨r, hr, hrS⟩
      have hmem1 : r ∈ df1.filter (fun r => r.Substrate_Concentration = S) := by
        rw [hrows]
        exact List.mem_filter.mpr ⟨hr, by simp [hrS]⟩
      exact List.mem_map.mpr ⟨r, (List.mem_filter.mp hmem1).1, hrS⟩
  by_cases hm : S ∈ scs1
  · rw [if_pos hm, if_pos (hmemiff.mp hm), hrows]
  · rw [if_neg hm, if_neg (fun hx => hm (hmemiff.mpr hx))]

/-- Witness for C8: a second table with an extra concentration 20 leaves the
report for concentration 10 unchanged. -/
theorem C8_report_depends_only_on_own_rows_witness :
    lookupReport ([10], [np_mean [(1:ℚ)/400]], [np_std [(1:ℚ)/400]]) 10 =
      lookupReport ([10, 20], [np_mean [(1:ℚ)/400], np_mean [(7:ℚ)/2000]],
        [np_std [(1:ℚ)/400], np_std [(7:ℚ)/2000]]) 10 := by
  have hc1 : calc_core [TableRow.mk 1 5 10 1] 1000 1 = .ok ([10], [[1/400]]) :=
    of_decide_eq_true (by with_unfolding_all rfl)
  have hc2 : calc_core [TableRow.mk 1 5 10 1, TableRow.mk 1 7 20 1] 1000 1 =
      .ok ([10, 20], [[1/400], [7/2000]]) :=
    of_decide_eq_true (by with_unfolding_all rfl)
  have h1 : calculate_initial_velocities [TableRow.mk 1 5 10 1] 1000 1 =
      .ok ([10], [np_mean [(1:ℚ)/400]], [np_std [(1:ℚ)/400]]) := by
    unfold calculate_initial_velocities
    rw [hc1, except_map_ok]
    rfl
  have h2 : calculate_initial_velocities
      [TableRow.mk 1 5 10 1, TableRow.mk 1 7 20 1] 1000 1 =
      .ok ([10, 20], [np_mean [(1:ℚ)/400], np_mean [(7:ℚ)/2000]],
        [np_std [(1:ℚ)/400], np_std [(7:ℚ)/2000]]) := by
    unfold calculate_initial_velocities
    rw [hc2, except_map_ok]
    rfl
  exact C8_report_depends_only_on_own_rows _ _ 1000 1 10
    (of_decide_eq_true (by with_unfolding_all rfl)) _ _ h1 h2

/-- C10: the reported dispersion is numpy's population standard deviation
(divisor `n`); a concentration with exactly one replicate therefore reports
a standard deviation of exactly 0 (not `NaN`, not omitted), and the output
triple stays index-aligned with equal lengths on every successful call. -/
theorem C10_population_std_alignment (df : List TableRow) (epsilon path_length : ℚ)
    (res : List ℚ × List ℚ × List ℝ)
    (h : calculate_initial_velocities df epsilon path_length = .ok res) :
    res.2.1.length = res.1.length ∧ res.2.2.length = res.1.length ∧
    ∀ S m st, lookupReport res S = some (m, st) → numReplicates df S = 1 → st = 0 := by
  obtain ⟨scs, vs, hc, hr⟩ := calculate_ok_elim df _ _ _ h
  obtain ⟨hu, hf⟩ := calc_core_ok_spec df _ _ _ _ hc
  subst hr
  have hlen := hf.length_eq
  refine ⟨by simp [hlen], by simp [hlen], ?_⟩
  intro S m st hlook hrep
  rw [lookupReport_of_forall2 df _ _ _ _ _ hf] at hlook
  by_cases hm : S ∈ scs
  · rw [if_pos hm] at hlook
    cases hv : v0_values (df.filter (fun r => r.Substrate_Concentration = S))
        epsilon path_length with
    | error e =>
      rw [hv] at hlook
      exact Option.noConfusion hlook
    | ok v =>
      rw [hv] at hlook
      simp only [Except.toOption, Option.map_some'] at hlook
      have hpair := Option.some.inj hlook
      have hvlen : v.length = numReplicates df S := by
        unfold v0_values at hv
        have := mapExcept_length _ _ _ hv
        simpa [numReplicates] using this
      rw [hrep] at hvlen
      rcases List.length_eq_one.mp hvlen with ⟨x, rfl⟩
      have hst : np_std [x] = st := congrArg Prod.snd hpair
      rw [← hst]
      exact np_std_singleton x
  · rw [if_neg hm] at hlook
    exact Option.noConfusion hlook

/-- Witness for C10 at a one-replicate table. -/
theorem C10_population_std_alignment_witness :
    ([np_mean [(1:ℚ)/400]].length = [(10:ℚ)].length) ∧
    ([np_std [(1:ℚ)/400]].length = [(10:ℚ)].length) ∧
    ∀ S m st,
      lookupReport ([10], [np_mean [(1:ℚ)/400]], [np_std [(1:ℚ)/400]]) S =
        some (m, st) →
      numReplicates [TableRow.mk 1 5 10 1] S = 1 → st = 0 := by
  have hc1 : calc_core [TableRow.mk 1 5 10 1] 1000 1 = .ok ([10], [[1/400]]) :=
    of_decide_eq_true (by with_unfolding_all rfl)
  have h1 : calculate_initial_velocities [TableRow.mk 1 5 10 1] 1000 1 =
      .ok ([10], [np_mean [(1:ℚ)/400]], [np_std [(1:ℚ)/400]]) := by
    unfold calculate_initial_velocities
    rw [hc1, except_map_ok]
    rfl
  exact C10_population_std_alignment _ 1000 1 _ h1

/-! ### The plate-heatmap notebook (C9) -/

/-- One measurement row of the plate table.  The notebook refers to the
column field both as `column` (when collecting the axis labels) and as `col`
(in the `groupby`); both name the same field of the input table, modelled
here as `col`.  `well_id` and the timestamp are unused by the pivot. -/
structure WellRow where
  row : Char
  col : ℕ
  value : ℚ
  deriving DecidableEq, Repr

/-- `rows = sorted(abs_df['row'].unique())`. -/
def heatmap_rows (df : List WellRow) : List Char :=
  List.insertionSort (· ≤ ·) (uniqueVals (df.map WellRow.row))

/-- `cols = sorted(abs_df['column'].unique())`. -/
def heatmap_cols (df : List WellRow) : List ℕ :=
  List.insertionSort (· ≤ ·) (uniqueVals (df.map WellRow.col))

/-- `abs_df.groupby(['row','col'])['value'].last()` at one cell: the last
value among the input rows of well `(r, c)`, or `none` when the well never
occurs (pandas shows it as `NaN`). -/
def cellValue (df : List WellRow) (r : Char) (c : ℕ) : Option ℚ :=
  ((df.filter (fun w => w.row = r ∧ w.col = c)).map WellRow.value).getLast?

/-- The pivot `groupby(['row','col']).last().unstack(level=1).reindex(index=
rows, columns=cols, fill_value=np.nan)`: a grid over the observed axes with
`cellValue` at each position (`unstack` introduces `NaN` for `(row, col)`
combinations it never saw; the second pivot of the notebook, without
`reindex`, yields the same grid since `rows`/`cols` are the observed values).
-/
def heatmap_data (df : List WellRow) : List (List (Option ℚ)) :=
  (heatmap_rows df).map (fun r => (heatmap_cols df).map (fun c => cellValue df r c))

/-- The 8 rows of the 96-well microtiter plate the notebook draws. -/
def plate_rows : List Char := ['A', 'B', 'C', 'D', 'E', 'F', 'G', 'H']

/-- The 12 columns of the 96-well plate. -/
def plate_cols : List ℕ := [1, 2, 3, 4, 5, 6, 7, 8, 9, 10, 11, 12]

/-- C9 counterexample: with a single measured well `A1`, the produced grid is
`1 × 1`; plate row `B` does not appear at all, so every cell `(B, c)` of the
plate is omitted from the grid rather than being an explicit `NaN`. -/
theorem C9_counterexample_absent_plate_row_omitted :
    ('B' ∈ plate_rows) ∧ ('B' ∉ heatmap_rows [WellRow.mk 'A' 1 1]) ∧
      heatmap_data [WellRow.mk 'A' 1 1] = [[some 1]] :=
  ⟨of_decide_eq_true (by with_unfolding_all rfl),
    of_decide_eq_true (by with_unfolding_all rfl),
    of_decide_eq_true (by with_unfolding_all rfl)⟩

/-- C9 (amended): the grid is complete over the *observed* axes: it has one
row per observed plate row, one entry per observed column in each, every
input well's row and column appear on the axes, cell `(i, j)` holds exactly
the group's last value, and a cell is the explicit `NaN` marker (`none`)
precisely when no input row carries that `(row, col)` pair — never omitted.
Wells of entirely unobserved plate rows or columns fall outside the grid. -/
theorem C9_grid_complete_over_observed_axes (df : List WellRow) :
    (heatmap_data df).length = (heatmap_rows df).length ∧
    (∀ gr ∈ heatmap_data df, gr.length = (heatmap_cols df).length) ∧
    (∀ w ∈ df, w.row ∈ heatmap_rows df ∧ w.col ∈ heatmap_cols df) ∧
    (∀ i j, i < (heatmap_rows df).length → j < (heatmap_cols df).length →
      ((heatmap_data df).getD i []).getD j none =
        cellValue df ((heatmap_rows df).getD i 'A') ((heatmap_cols df).getD j 0)) ∧
    (∀ r c, cellValue df r c = none ↔ ¬ ∃ w ∈ df, w.row = r ∧ w.col = c) := by
  refine ⟨by simp [heatmap_data], ?_, ?_, ?_, ?_⟩
  · intro gr hgr
    rcases List.mem_map.mp hgr with ⟨r, _, rfl⟩
    simp
  · intro w hw
    constructor
    · rw [heatmap_rows, List.mem_insertionSort, mem_uniqueVals]
      exact List.mem_map.mpr ⟨w, hw, rfl⟩
    · rw [heatmap_cols, List.mem_insertionSort, mem_uniqueVals]
      exact List.mem_map.mpr ⟨w, hw, rfl⟩
  · intro i j hi hj
    have hrow : (heatmap_rows df).getD i 'A' = (heatmap_rows df).get ⟨i, hi⟩ := by
      rw [List.getD_eq_get?, List.get?_eq_get hi]
      rfl
    have hcol : (heatmap_cols df).getD j 0 = (heatmap_cols df).get ⟨j, hj⟩ := by
      rw [List.getD_eq_get?, List.get?_eq_get hj]
      rfl
    have hdata : (heatmap_data df).getD i [] =
        (heatmap_cols df).map
          (fun c => cellValue df ((heatmap_rows df).get ⟨i, hi⟩) c) := by
      rw [List.getD_eq_get?, heatmap_data, List.get?_map, List.get?_eq_get hi]
      rfl
    rw [hdata, hrow, hcol, List.getD_eq_get?, List.get?_map, List.get?_eq_get hj]
    rfl
  · intro r c
    unfold cellValue
    rw [List.getLast?_eq_none_iff, List.map_eq_nil_iff, List.filter_eq_nil_iff]
    constructor
    · rintro hall ⟨w, hw, hrw, hcw⟩
      exact hall w hw (by simp [hrw, hcw])
    · intro hne w hw hp
      simp only [decide_eq_true_eq] at hp
      exact hne ⟨w, hw, hp.1, hp.2⟩

/-- Witness for C9 (amended) at a concrete one-well table. -/
theorem C9_grid_complete_over_observed_axes_witness :
    (((heatmap_data [WellRow.mk 'A' 1 1]).getD 0 []).getD 0 none =
      cellValue [WellRow.mk 'A' 1 1] ((heatmap_rows [WellRow.mk 'A' 1 1]).getD 0 'A')
        ((heatmap_cols [WellRow.mk 'A' 1 1]).getD 0 0)) ∧
    (cellValue [WellRow.mk 'A' 1 1] 'A' 2 = none ↔
      ¬ ∃ w ∈ [WellRow.mk 'A' 1 1], w.row = 'A' ∧ w.col = 2) := by
  have h := C9_grid_complete_over_observed_axes [WellRow.mk 'A' 1 1]
  exact ⟨h.2.2.2.1 0 0 (of_decide_eq_true (by with_unfolding_all rfl))
      (of_decide_eq_true (by with_unfolding_all rfl)),
    h.2.2.2.2 'A' 2⟩

/-! ### The CSV generator `save_simulated_absorbance_data` and C7 -/

/-- The rows one simulated replicate contributes to the exported table:
`for t, absorbance in zip(time, A_noisy): data.append({'Time': t,
'Absorbance': absorbance, 'Substrate_Concentration': S, 'Replicate':
replicate})`. -/
def replicateRows (S : ℚ) (time : List ℚ) (epsilon path_length V_max K_m : ℚ)
    (noise : List ℚ) (rep : ℤ) : List TableRow :=
  (time.zip (simulate_absorbance S time epsilon path_length V_max K_m noise)).map
    (fun p => TableRow.mk p.1 p.2 S rep)

/-- `def save_simulated_absorbance_data(...)`: for each substrate
concentration `S` and each `replicate in range(1, n_replicates + 1)`,
simulate one absorbance trace and append its rows to the flat table.
`noise S rep` is the vector of Gaussian draws of that replicate (each of
length `len(time)` in the source). -/
def save_simulated_absorbance_data (substrate_concentrations time : List ℚ)
    (epsilon path_length V_max K_m : ℚ) (n_replicates : ℕ)
    (noise : ℚ → ℤ → List ℚ) : List TableRow :=
  (substrate_concentrations.map (fun S =>
    ((List.range n_replicates).map (fun r : ℕ =>
      replicateRows S time epsilon path_length V_max K_m (noise S ((r : ℤ) + 1))
        ((r : ℤ) + 1))).flatten)).flatten

/-- Filtering on a key that is constant on a list keeps all of it or none. -/
theorem filter_key_eq {α β : Type} [DecidableEq β] (l : List α) (k : α → β)
    (v : β) (h : ∀ a ∈ l, k a = v) (w : β) :
    l.filter (fun a => k a = w) = if v = w then l else [] := by
  induction l with
  | nil => simp
  | cons x xs ih =>
    have hx : k x = v := h x (by simp)
    have ihx := ih (fun a ha => h a (by simp [ha]))
    by_cases hv : v = w
    · subst hv
      rw [List.filter_cons_of_pos (by simp [hx]), ihx]
      simp
    · rw [List.filter_cons_of_neg (by simp [hx, hv]), ihx]
      simp [hv]

/-- Filtering the concatenation of key-tagged blocks on one tag of a
duplicate-free tag list keeps exactly that tag's block. -/
theorem filter_flatten_tagged {α β : Type} [DecidableEq β] (g : β → List α)
    (k : α → β) (hkey : ∀ i a, a ∈ g i → k a = i) :
    ∀ (idx : List β), idx.Nodup → ∀ b ∈ idx,
      ((idx.map g).flatten).filter (fun a => k a = b) = g b := by
  intro idx
  induction idx with
  | nil => intro _ b hb; cases hb
  | cons c cs ih =>
    intro hnd b hb
    rcases List.nodup_cons.mp hnd with ⟨hc, hcs⟩
    rw [List.map_cons, List.flatten_cons, List.filter_append]
    have hhead := filter_key_eq (g c) k c (hkey c) b
    rcases List.mem_cons.mp hb with rfl | hb2
    · rw [hhead, if_pos rfl]
      have htail : ((cs.map g).flatten).filter (fun a => k a = b) = [] := by
        rw [List.filter_eq_nil_iff]
        intro a ha
        rcases List.mem_flatten.mp ha with ⟨rows, hrows, harows⟩
        rcases List.mem_map.mp hrows with ⟨i, hi, rfl⟩
        have hki := hkey i a harows
        simp only [decide_eq_true_eq]
        intro he
        exact hc ((hki.symm.trans he) ▸ hi)
      rw [htail, List.append_nil]
    · rw [hhead, if_neg (fun (he : c = b) => hc (show c ∈ cs from he ▸ hb2)),
        List.nil_append]
      exact ih hcs b hb2

/-- A member of the right list of a `Forall₂` has a related member on the
left. -/
theorem forall2_mem_right {α β : Type} {R : α → β → Prop} {l1 : List α}
    {l2 : List β} (h : List.Forall₂ R l1 l2) {b : β} (hb : b ∈ l2) :
    ∃ a ∈ l1, R a b := by
  induction h with
  | nil => cases hb
  | cons hxy htl ih =>
    rcases List.mem_cons.mp hb with rfl | hb2
    · exact ⟨_, by simp, hxy⟩
    · rcases ih hb2 with ⟨a, ha, hab⟩
      exact ⟨a, by simp [ha], hab⟩

/-- `np.std` of a list with all elements equal is exactly zero. -/
theorem np_std_of_constant (v : List ℚ) (x : ℚ) (h : ∀ y ∈ v, y = x) :
    np_std v = 0 := by
  have hrep : v = List.replicate v.length x := List.eq_replicate_of_mem h
  rw [hrep]
  exact np_std_replicate v.length x

/-- On a table whose rows are one fixed list of (time, absorbance) pairs
tagged with each id of a duplicate-free replicate-id list, all `v0` slopes
the estimator computes coincide. -/
theorem v0_values_tagged_const (pairs : List (ℚ × ℚ)) (S0 : ℚ) (tags : List ℤ)
    (htagsnodup : tags.Nodup) (eps2 plen2 : ℚ) (v : List ℚ)
    (hv : v0_values ((tags.map (fun tg => pairs.map
        (fun p => TableRow.mk p.1 p.2 S0 tg))).flatten) eps2 plen2 = .ok v) :
    ∀ y1 ∈ v, ∀ y2 ∈ v, y1 = y2 := by
  have hfilterrep : ∀ rep ∈ tags,
      ((tags.map (fun tg => pairs.map
          (fun p => TableRow.mk p.1 p.2 S0 tg))).flatten).filter
        (fun r => r.Replicate = rep) =
      pairs.map (fun p => TableRow.mk p.1 p.2 S0 rep) :=
    filter_flatten_tagged (fun tg => pairs.map (fun p => TableRow.mk p.1 p.2 S0 tg))
      TableRow.Replicate
      (fun i a ha => by rcases List.mem_map.mp ha with ⟨p, _, rfl⟩; rfl)
      tags htagsnodup
  have hcol : ∀ rep ∈ uniqueVals
      ((((tags.map (fun tg => pairs.map
        (fun p => TableRow.mk p.1 p.2 S0 tg))).flatten).map TableRow.Replicate)),
      rep ∈ tags := by
    intro rep hrep
    rw [mem_uniqueVals] at hrep
    rcases List.mem_map.mp hrep with ⟨a, ha, rfl⟩
    rcases List.mem_flatten.mp ha with ⟨rows, hrows, harows⟩
    rcases List.mem_map.mp hrows with ⟨tg, htg, rfl⟩
    rcases List.mem_map.mp harows with ⟨p, _, rfl⟩
    exact htg
  unfold v0_values at hv
  have hforall := (mapExcept_eq_ok_iff _ _ _).mp hv
  have hconst : ∀ y ∈ v,
      (polyfit1 (pairs.map Prod.fst)
        (pairs.map (fun p => p.2 / (eps2 * plen2)))).map Prod.fst = .ok y := by
    intro y hy
    obtain ⟨rep, hrepmem, hrepy⟩ := forall2_mem_right hforall hy
    have hrtags := hcol rep hrepmem
    simp only [hfilterrep rep hrtags, List.map_map] at hrepy
    exact hrepy
  intro y1 h1 y2 h2
  exact Except.ok.inj ((hconst y1 h1).symm.trans (hconst y2 h2))

/-- C7: when every replicate of the generator's table is produced with
`noise_level = 0` (every Gaussian draw exactly zero, which is what
`np.random.normal(0, 0, n)` returns), every standard deviation the estimator
reports is exactly 0. -/
theorem C7_noiseless_replicates_zero_std
    (substrate_concentrations time : List ℚ)
    (epsilon path_length V_max K_m : ℚ) (n_replicates : ℕ)
    (noise : ℚ → ℤ → List ℚ) (eps2 plen2 : ℚ)
    (hnodup : substrate_concentrations.Nodup)
    (hlen : ∀ S rep, (noise S rep).length = time.length)
    (hzero : ∀ S rep, ∀ e ∈ noise S rep, e = 0)
    (res : List ℚ × List ℚ × List ℝ)
    (h : calculate_initial_velocities
      (save_simulated_absorbance_data substrate_concentrations time epsilon
        path_length V_max K_m n_replicates noise) eps2 plen2 = .ok res) :
    ∀ st ∈ res.2.2, st = 0 := by
  obtain ⟨scs, vs, hc, hr⟩ := calculate_ok_elim _ _ _ _ h
  obtain ⟨hu, hf⟩ := calc_core_ok_spec _ _ _ _ _ hc
  subst hr
  intro st hst
  rcases List.mem_map.mp hst with ⟨v, hvmem, rfl⟩
  obtain ⟨S0, hS0mem, hS0v⟩ := forall2_mem_right hf hvmem
  have hkeyS : ∀ S a, a ∈ ((List.range n_replicates).map (fun r : ℕ =>
      replicateRows S time epsilon path_length V_max K_m (noise S ((r : ℤ) + 1))
        ((r : ℤ) + 1))).flatten → a.Substrate_Concentration = S := by
    intro S a ha
    rcases List.mem_flatten.mp ha with ⟨rows, hrows, harows⟩
    rcases List.mem_map.mp hrows with ⟨rr, _, rfl⟩
    unfold replicateRows at harows
    rcases List.mem_map.mp harows with ⟨p, _, rfl⟩
    rfl
  have hS0concs : S0 ∈ substrate_concentrations := by
    rw [hu, mem_uniqueVals] at hS0mem
    rcases List.mem_map.mp hS0mem with ⟨r, hr2, hrS⟩
    unfold save_simulated_absorbance_data at hr2
    rcases List.mem_flatten.mp hr2 with ⟨blk, hblk, hrblk⟩
    rcases List.mem_map.mp hblk with ⟨S, hS, rfl⟩
    rw [← hrS, hkeyS S r hrblk]
    exact hS
  have hfilterS0 : (save_simulated_absorbance_data substrate_concentrations time
      epsilon path_length V_max K_m n_replicates noise).filter
        (fun r => r.Substrate_Concentration = S0) =
      ((List.range n_replicates).map (fun r : ℕ =>
        replicateRows S0 time epsilon path_length V_max K_m (noise S0 ((r : ℤ) + 1))
          ((r : ℤ) + 1))).flatten := by
    unfold save_simulated_absorbance_data
    exact filter_flatten_tagged _ TableRow.Substrate_Concentration hkeyS
      substrate_concentrations hnodup S0 hS0concs
  have hsim : ∀ rep : ℤ, simulate_absorbance S0 time epsilon path_length V_max K_m
      (noise S0 rep) =
      time.map (fun t => epsilon * path_length *
        (michaelis_menten S0 V_max K_m * t)) := by
    intro rep
    unfold simulate_absorbance
    exact zipWith_add_zero _ time (noise S0 rep) (hlen S0 rep) (hzero S0 rep)
  have htagform : ((List.range n_replicates).map (fun r : ℕ =>
      replicateRows S0 time epsilon path_length V_max K_m (noise S0 ((r : ℤ) + 1))
        ((r : ℤ) + 1))).flatten =
      (((List.range n_replicates).map (fun r : ℕ => ((r : ℤ) + 1))).map (fun tg =>
        (time.zip (time.map (fun t => epsilon * path_length *
          (michaelis_menten S0 V_max K_m * t)))).map
          (fun p => TableRow.mk p.1 p.2 S0 tg))).flatten := by
    rw [List.map_map]
    congr 1
    refine List.map_congr_left (fun r _ => ?_)
    show replicateRows S0 time epsilon path_length V_max K_m
      (noise S0 ((r : ℤ) + 1)) ((r : ℤ) + 1) = _
    unfold replicateRows
    rw [hsim ((r : ℤ) + 1)]
    rfl
  rw [hfilterS0, htagform] at hS0v
  have htagsnodup : (((List.range n_replicates).map (fun r : ℕ => ((r : ℤ) + 1)))).Nodup :=
    List.Nodup.map (fun a b hab => by omega) (List.nodup_range n_replicates)
  have hpair := v0_values_tagged_const _ S0 _ htagsnodup eps2 plen2 v hS0v
  rcases v with _ | ⟨y0, vtl⟩
  · exact np_std_of_constant [] 0 (by simp)
  · exact np_std_of_constant _ y0 (fun y hy => hpair y hy y0 (by simp))

/-- Witness for C7 on a concrete noiseless generation with 2 replicates. -/
theorem C7_noiseless_replicates_zero_std_witness :
    np_std [(50 : ℚ)/3, 50/3] = (0 : ℝ) := by
  have hcore : calc_core (save_simulated_absorbance_data [10] [0, 1] 1 1 100 50 2
      (fun _ _ => [0, 0])) 1 1 = .ok ([10], [[50/3, 50/3]]) :=
    of_decide_eq_true (by with_unfolding_all rfl)
  have h : calculate_initial_velocities (save_simulated_absorbance_data [10] [0, 1]
      1 1 100 50 2 (fun _ _ => [0, 0])) 1 1 =
      .ok ([10], [np_mean [(50 : ℚ)/3, 50/3]], [np_std [(50 : ℚ)/3, 50/3]]) := by
    unfold calculate_initial_velocities
    rw [hcore, except_map_ok]
    rfl
  exact C7_noiseless_replicates_zero_std [10] [0, 1] 1 1 100 50 2
    (fun _ _ => [0, 0]) 1 1 (by simp) (fun S rep => rfl)
    (by
      intro S rep e he
      simp only [List.mem_cons, List.not_mem_nil, or_false] at he
      rcases he with rfl | rfl <;> rfl)
    _ h (np_std [(50 : ℚ)/3, 50/3]) (by simp)
